import Mathlib

/-!
Verification of the LabImageBatcher image geometry/layout engine (`app.py`).

The development shallowly embeds the arithmetic of the source:
Python `float` arithmetic on ratios of machine integers is modelled by exact
rationals (`ℚ`), Python `int` by `ℤ`/`ℕ`, Python `//` by `Int.fdiv`
(floor division), Python `round` by round-half-to-even, and PIL images by a
width/height pair with a pixel function.
-/

namespace LabImageBatcher

/-- Python built-in `round()`: round to the nearest integer, ties to even
(banker's rounding).  In the source it always appears as `int(round(...))`,
and `int` is the identity on the integer that `round` returns. -/
def pyRound (q : ℚ) : ℤ :=
  if q - ⌊q⌋ < 1/2 then ⌊q⌋
  else if 1/2 < q - ⌊q⌋ then ⌊q⌋ + 1
  else if ⌊q⌋ % 2 = 0 then ⌊q⌋ else ⌊q⌋ + 1

theorem pyRound_intCast (n : ℤ) : pyRound (n : ℚ) = n := by
  unfold pyRound
  rw [Int.floor_intCast]
  simp

theorem pyRound_natCast (n : ℕ) : pyRound (n : ℚ) = n := by
  have : ((n : ℤ) : ℚ) = (n : ℚ) := by push_cast; ring
  rw [← this, pyRound_intCast]

theorem floor_le_pyRound (q : ℚ) : ⌊q⌋ ≤ pyRound q := by
  unfold pyRound
  split
  · exact le_refl _
  · split
    · omega
    · split <;> omega

theorem pyRound_le_floor_add_one (q : ℚ) : pyRound q ≤ ⌊q⌋ + 1 := by
  unfold pyRound
  split
  · omega
  · split
    · omega
    · split <;> omega

theorem pyRound_nonneg {q : ℚ} (h : 0 ≤ q) : 0 ≤ pyRound q := by
  have h0 : (0 : ℤ) ≤ ⌊q⌋ := Int.le_floor.mpr (by exact_mod_cast h)
  have := floor_le_pyRound q
  omega

theorem pyRound_le_of_le {q : ℚ} {n : ℤ} (h : q ≤ n) : pyRound q ≤ n := by
  rcases eq_or_lt_of_le h with heq | hlt
  · rw [heq, pyRound_intCast]
  · have hfl : ⌊q⌋ < n := Int.floor_lt.mpr hlt
    have := pyRound_le_floor_add_one q
    omega

/- ------------------------------------------------------------------
   `parse_size` (app.py lines 60-68) and the Python string built-ins it
   uses: `str.lower`, `str.replace("×","x")`, `str.split("x")`,
   `str.strip`, `int(...)`.
   ------------------------------------------------------------------ -/

/-- `text.lower().replace("×", "x")` applied characterwise (`lower` acts on
each character independently, and `"×"` is a single character). -/
def pyLowerReplace (s : List Char) : List Char :=
  s.map (fun c => let c2 := c.toLower; if c2 = '×' then 'x' else c2)

/-- `str.strip()`: remove leading and trailing whitespace. -/
def pyStrip (s : List Char) : List Char :=
  ((s.dropWhile Char.isWhitespace).reverse.dropWhile Char.isWhitespace).reverse

/-- The decimal value of a digit string. -/
def digitsVal (l : List Char) : ℕ :=
  l.foldl (fun acc c => 10 * acc + (c.toNat - '0'.toNat)) 0

/-- Value of a nonempty all-digit string, the core of `int(...)`. -/
def digitsToNat : List Char → Option ℕ
  | [] => none
  | l => if l.all Char.isDigit then some (digitsVal l) else none

/-- Python `int(str)` on an already-stripped string: an optional sign
followed by at least one decimal digit; anything else raises `ValueError`
(modelled as `none`). -/
def pyInt (s : List Char) : Option ℤ :=
  if s.head? = some '-' then (digitsToNat s.tail).map (fun n => -(n : ℤ))
  else if s.head? = some '+' then (digitsToNat s.tail).map (fun n => (n : ℤ))
  else (digitsToNat s).map (fun n => (n : ℤ))

/-- The `parts` list of `parse_size`:
`text.lower().replace("×", "x").split("x")`. -/
def sizeParts (text : String) : List (List Char) :=
  (pyLowerReplace text.toList).splitOn 'x'

/-- `parse_size` (app.py lines 60-68): parse `"WxH"` into `(w, h)`;
raise `ValueError` (modelled as `.error`) when the text does not split into
exactly two parts, a part is not an integer literal, or a value is not
positive. -/
def parse_size (text : String) : Except String (ℤ × ℤ) :=
  match sizeParts text with
  | [a, b] =>
    match pyInt (pyStrip a), pyInt (pyStrip b) with
    | some w, some h =>
      if w ≤ 0 ∨ h ≤ 0 then .error "width and height must be positive"
      else .ok (w, h)
    | _, _ => .error "invalid literal for int"
  | _ => .error "expected WxH, e.g. 1024x768"

/-- Target-canvas text input handling (app.py lines 183-189): on a parse
failure the error text is shown to the user via `st.error` and the size
falls back to `(1024, 768)`.  The boolean records whether an error message
was reported to the user. -/
def target_canvas_config (box_str : String) : Bool × ℤ × ℤ :=
  match parse_size box_str with
  | .ok (w, h) => (false, w, h)
  | .error _ => (true, 1024, 768)

/-- Custom sheet-size text input handling (app.py lines 200-205): on a parse
failure the size falls back to `(2480, 3508)`; the `except` clause is empty,
so no error message is shown to the user.  The boolean records whether an
error message was reported to the user. -/
def sheet_size_config (s : String) : Bool × ℤ × ℤ :=
  match parse_size s with
  | .ok (w, h) => (false, w, h)
  | .error _ => (false, 2480, 3508)

/- ------------------------------------------------------------------
   PIL image model: width, height and a pixel function.  Pixels are RGB
   triples; only values at coordinates inside the image are meaningful.
   ------------------------------------------------------------------ -/

/-- An RGB pixel value. -/
abbrev RGB : Type := ℕ × ℕ × ℕ

/-- The zero pixel: PIL fills areas outside a crop box with zeros. -/
def blackPx : RGB := (0, 0, 0)

/-- A decoded RGB image: PIL `Image` after `convert("RGB")`. -/
structure Img where
  width : ℕ
  height : ℕ
  px : ℕ → ℕ → RGB

/-- An interpolation kernel: given the source image and the requested
dimensions, produce the pixel function of the resampled image.  The choice
(nearest/bilinear/bicubic/Lanczos) never affects the output dimensions. -/
abbrev Interp : Type := Img → ℕ → ℕ → ℕ → ℕ → RGB

/-- Nearest-neighbour interpolation (`Image.NEAREST`), used to instantiate
theorems at concrete inputs. -/
def nearestInterp : Interp := fun img nw nh x y =>
  img.px (x * img.width / nw) (y * img.height / nh)

/-- PIL `Image.resize((nw, nh), interp)`: the result has exactly the
requested dimensions; when they equal the source dimensions PIL returns a
copy of the source (identical content), otherwise the interpolation kernel
determines the pixels. -/
def Img.resize (interp : Interp) (img : Img) (nw nh : ℕ) : Img :=
  if nw = img.width ∧ nh = img.height then img
  else ⟨nw, nh, interp img nw nh⟩

theorem Img.resize_width (interp : Interp) (img : Img) (nw nh : ℕ) :
    (img.resize interp nw nh).width = nw := by
  unfold Img.resize
  split
  · omega
  · rfl

theorem Img.resize_height (interp : Interp) (img : Img) (nw nh : ℕ) :
    (img.resize interp nw nh).height = nh := by
  unfold Img.resize
  split
  · omega
  · rfl

theorem Img.resize_self (interp : Interp) (img : Img) :
    img.resize interp img.width img.height = img := by
  unfold Img.resize
  simp

/-- PIL `Image.new("RGB", (w, h), color)`: a solid-color canvas. -/
def newImage (w h : ℕ) (color : RGB) : Img := ⟨w, h, fun _ _ => color⟩

/-- PIL `canvas.paste(im, (ox, oy))`: overlay `im` on `canvas` with its
top-left corner at `(ox, oy)`; the canvas dimensions are unchanged. -/
def Img.paste (canvas im : Img) (ox oy : ℤ) : Img :=
  ⟨canvas.width, canvas.height, fun x y =>
    if ox ≤ (x : ℤ) ∧ (x : ℤ) < ox + im.width ∧
       oy ≤ (y : ℤ) ∧ (y : ℤ) < oy + im.height
    then im.px ((x : ℤ) - ox).toNat ((y : ℤ) - oy).toNat
    else canvas.px x y⟩

/-- PIL `Image.crop((left, top, right, bottom))`: the result has size
`(right - left, bottom - top)`; coordinates that fall outside the source
image read as zero (black). -/
def Img.crop (img : Img) (left top right bottom : ℕ) : Img :=
  ⟨right - left, bottom - top, fun x y =>
    if left + x < img.width ∧ top + y < img.height
    then img.px (left + x) (top + y)
    else blackPx⟩

/- ------------------------------------------------------------------
   The two resize entry points of the source.
   ------------------------------------------------------------------ -/

/-- The `mode` radio value of `resize_by_long_or_short`: the source compares
the string against `"最长边"` (longest edge); any other value means
shortest edge. -/
inductive EdgeMode
  | long
  | short
  deriving DecidableEq

/-- `resize_by_long_or_short` (app.py lines 79-102). -/
def resize_by_long_or_short (interp : Interp) (img : Img) (target : ℕ)
    (mode : EdgeMode) (keep_ratio no_upscale : Bool) : Img :=
  let w := img.width
  let h := img.height
  if keep_ratio then
    let scale : ℚ :=
      if mode = .long then (target : ℚ) / (max w h : ℕ)
      else (target : ℚ) / (min w h : ℕ)
    if no_upscale ∧ 1 < scale then img
    else
      img.resize interp (max 1 (pyRound (w * scale))).toNat
        (max 1 (pyRound (h * scale))).toNat
  else
    let wh : ℕ × ℕ :=
      if mode = .long then (if h ≤ w then (target, h) else (w, target))
      else (if w ≤ h then (target, h) else (w, target))
    let wh := if no_upscale then (min wh.1 w, min wh.2 h) else wh
    img.resize interp wh.1 wh.2

/-- The `fit_mode` selectbox value of `resize_to_box`: the source compares
the string against `"等比缩放，补边"` (scale and pad) and
`"等比填满，居中裁剪"` (fill and center-crop); any other value stretches. -/
inductive FitMode
  | padToFit
  | cropToFill
  | stretch
  deriving DecidableEq

/-- `resize_to_box` (app.py lines 105-128). -/
def resize_to_box (interp : Interp) (img : Img) (tw th : ℕ)
    (fit_mode : FitMode) (color : RGB) (no_upscale : Bool) : Img :=
  let w := img.width
  let h := img.height
  match fit_mode with
  | .padToFit =>
    let scale : ℚ := min ((tw : ℚ) / w) ((th : ℚ) / h)
    let scale := if no_upscale then min 1 scale else scale
    let nw := (max 1 (pyRound (w * scale))).toNat
    let nh := (max 1 (pyRound (h * scale))).toNat
    let img2 := img.resize interp nw nh
    let canvas := newImage tw th color
    canvas.paste img2 (((tw : ℤ) - nw).fdiv 2) (((th : ℤ) - nh).fdiv 2)
  | .cropToFill =>
    let scale : ℚ := max ((tw : ℚ) / w) ((th : ℚ) / h)
    let scale := if no_upscale then min 1 scale else scale
    let nw := (max 1 (pyRound (w * scale))).toNat
    let nh := (max 1 (pyRound (h * scale))).toNat
    let img2 := img.resize interp nw nh
    let left := (max 0 (((nw : ℤ) - tw).fdiv 2)).toNat
    let top := (max 0 (((nh : ℤ) - th).fdiv 2)).toNat
    img2.crop left top (left + tw) (top + th)
  | .stretch =>
    let wh : ℕ × ℕ := if no_upscale then (min tw w, min th h) else (tw, th)
    img.resize interp wh.1 wh.2

/- ------------------------------------------------------------------
   Contact-sheet grid layout (app.py lines 289-328).
   ------------------------------------------------------------------ -/

/-- Python `max(iterable)`: `none` models the `ValueError` that `max`
raises on an empty sequence. -/
def listMax : List ℕ → Option ℕ
  | [] => none
  | a :: l => some (l.foldl max a)

/-- Python `math.ceil(n / c)` for integers `n ≥ 0`, `c ≥ 1`. -/
def pyCeilDiv (n c : ℕ) : ℕ := (n + c - 1) / c

/-- The geometry computed for the contact sheet before pasting: cell size,
row count, canvas size, and whether the too-small-canvas warning fires. -/
structure SheetPlan where
  cell_w : ℕ
  cell_h : ℕ
  rows : ℕ
  W : ℕ
  H : ℕ
  warn : Bool
  deriving DecidableEq

/-- The contact-sheet geometry computation (app.py lines 298-313):
`cell_w`/`cell_h` are `max(im.width ...)`/`max(im.height ...)` over the
images entering the layout (these raise on an empty batch, modelled as
`.error`); with no fixed sheet size the canvas is sized from the grid,
otherwise the fixed size is used and a warning fires when it is smaller
than the auto-computed minimum. -/
def contact_sheet_plan (sizes : List (ℕ × ℕ)) (cols gap margin : ℕ)
    (fixed : Option (ℕ × ℕ)) : Except String SheetPlan :=
  match listMax (sizes.map Prod.fst), listMax (sizes.map Prod.snd) with
  | some cell_w, some cell_h =>
    match fixed with
    | none =>
      let rows := pyCeilDiv sizes.length cols
      .ok ⟨cell_w, cell_h, rows,
        margin * 2 + cols * cell_w + (cols - 1) * gap,
        margin * 2 + rows * cell_h + (rows - 1) * gap, false⟩
    | some (sw, sh) =>
      let rows := max 1 (pyCeilDiv sizes.length cols)
      let minW := margin * 2 + cols * cell_w + (cols - 1) * gap
      let minH := margin * 2 + rows * cell_h + (rows - 1) * gap
      .ok ⟨cell_w, cell_h, rows, sw, sh, decide (sw < minW) || decide (sh < minH)⟩
  | _, _ => .error "max() arg is an empty sequence"

/-- One iteration of the paste loop (app.py lines 318-328): the paste
position of the image with index `i` and size `sz`, centered in its cell,
falling back to the cell's top-left corner when a centering offset would be
negative. -/
def place_in_grid (cell_w cell_h cols gap margin : ℕ) (i : ℕ)
    (sz : ℕ × ℕ) : ℕ × ℕ :=
  let r := i / cols
  let c := i % cols
  let x := margin + c * (cell_w + gap)
  let y := margin + r * (cell_h + gap)
  let ox : ℤ := (x : ℤ) + ((cell_w : ℤ) - sz.1).fdiv 2
  let oy : ℤ := (y : ℤ) + ((cell_h : ℤ) - sz.2).fdiv 2
  if ox < 0 ∨ oy < 0 then (x, y) else (ox.toNat, oy.toNat)

/-- Two axis-aligned boxes, given by top-left corner and size, share a
point. -/
def boxesOverlap (p1 s1 p2 s2 : ℕ × ℕ) : Prop :=
  ∃ u v : ℕ,
    (p1.1 ≤ u ∧ u < p1.1 + s1.1 ∧ p1.2 ≤ v ∧ v < p1.2 + s1.2) ∧
    (p2.1 ≤ u ∧ u < p2.1 + s2.1 ∧ p2.2 ≤ v ∧ v < p2.2 + s2.2)

theorem le_foldl_max (l : List ℕ) (b : ℕ) : b ≤ l.foldl max b := by
  induction l generalizing b with
  | nil => simp
  | cons a l ih => exact le_trans (le_max_left b a) (ih (max b a))

theorem mem_le_foldl_max {a : ℕ} (l : List ℕ) (b : ℕ) (h : a ∈ l) :
    a ≤ l.foldl max b := by
  induction l generalizing b with
  | nil => cases h
  | cons c l ih =>
    rcases List.mem_cons.mp h with rfl | h2
    · exact le_trans (le_max_right b a) (le_foldl_max l _)
    · exact ih _ h2

theorem mem_le_listMax {a m : ℕ} {l : List ℕ} (hmem : a ∈ l)
    (hmax : listMax l = some m) : a ≤ m := by
  cases l with
  | nil => cases hmem
  | cons b l =>
    simp only [listMax, Option.some.injEq] at hmax
    subst hmax
    rcases List.mem_cons.mp hmem with rfl | h2
    · exact le_foldl_max l a
    · exact mem_le_foldl_max l b h2

theorem foldl_max_mem (l : List ℕ) (b : ℕ) :
    l.foldl max b = b ∨ l.foldl max b ∈ l := by
  induction l generalizing b with
  | nil => left; rfl
  | cons c l ih =>
    rcases ih (max b c) with heq | hmem
    · rcases max_choice b c with hb | hc
      · left; simpa [hb] using heq
      · right
        show List.foldl max (max b c) l ∈ c :: l
        rw [heq, hc]
        exact List.mem_cons_self _ _
    · right; exact List.mem_cons_of_mem _ hmem

theorem listMax_mem {m : ℕ} {l : List ℕ} (hmax : listMax l = some m) :
    m ∈ l := by
  cases l with
  | nil => simp [listMax] at hmax
  | cons b l =>
    simp only [listMax, Option.some.injEq] at hmax
    subst hmax
    rcases foldl_max_mem l b with heq | hmem
    · rw [heq]; exact List.mem_cons_self _ _
    · exact List.mem_cons_of_mem _ hmem

/- ------------------------------------------------------------------
   Spec-side formulas (written from the specification text, to be compared
   with the embedded source functions).
   ------------------------------------------------------------------ -/

/-- Spec §4.1: scale = target / max(w,h) (LongEdge) or target / min(w,h)
(ShortEdge). -/
def specScale (mode : EdgeMode) (target w h : ℕ) : ℚ :=
  match mode with
  | .long => (target : ℚ) / (max w h : ℕ)
  | .short => (target : ℚ) / (min w h : ℕ)

/-- Spec §4.1: new dims = round(d * scale), floored to minimum 1. -/
def specDim (d : ℕ) (scale : ℚ) : ℕ := (max 1 (pyRound (d * scale))).toNat

/-- Spec §4.1 PadToFit: scale = min(tw/w, th/h), clamped to ≤ 1 under
noUpscale. -/
def specPadScale (noUp : Bool) (w h tw th : ℕ) : ℚ :=
  let s := min ((tw : ℚ) / w) ((th : ℚ) / h)
  if noUp then min 1 s else s

/-- Spec §4.1 CropToFill: scale = max(tw/w, th/h), clamped to ≤ 1 under
noUpscale. -/
def specCropScale (noUp : Bool) (w h tw th : ℕ) : ℚ :=
  let s := max ((tw : ℚ) / w) ((th : ℚ) / h)
  if noUp then min 1 s else s

/-- A solid-colour image used to instantiate theorems at concrete inputs. -/
def testImg (w h : ℕ) : Img := ⟨w, h, fun _ _ => blackPx⟩

/-- The keep-aspect branch of `resize_by_long_or_short` in closed form. -/
theorem rls_keep_eq (interp : Interp) (img : Img) (target : ℕ)
    (mode : EdgeMode) (noUp : Bool) :
    resize_by_long_or_short interp img target mode true noUp =
      if noUp = true ∧ 1 < specScale mode target img.width img.height then img
      else
        img.resize interp
          (specDim img.width (specScale mode target img.width img.height))
          (specDim img.height (specScale mode target img.width img.height)) := by
  cases mode <;> simp [resize_by_long_or_short, specScale, specDim]

/-- C1: in LongEdge/ShortEdge mode with keepAspect, the scale is
target/max(w,h) resp. target/min(w,h); with noUpscale and scale > 1 the
input image is returned unchanged, and otherwise the output dimensions are
(max 1 (round (w·scale)), max 1 (round (h·scale))).  In particular
(800,600) and (600,800) at LongEdge target 400 with noUpscale off resize to
(400,300) and (300,400). -/
theorem long_short_edge_sizing (interp : Interp) (img : Img) (target : ℕ)
    (mode : EdgeMode) (noUp : Bool)
    (hw : 0 < img.width) (hh : 0 < img.height) :
    (noUp = true ∧ 1 < specScale mode target img.width img.height →
      resize_by_long_or_short interp img target mode true noUp = img) ∧
    (¬(noUp = true ∧ 1 < specScale mode target img.width img.height) →
      (resize_by_long_or_short interp img target mode true noUp).width =
        specDim img.width (specScale mode target img.width img.height) ∧
      (resize_by_long_or_short interp img target mode true noUp).height =
        specDim img.height (specScale mode target img.width img.height)) ∧
    (resize_by_long_or_short nearestInterp (testImg 800 600) 400
      .long true false).width = 400 ∧
    (resize_by_long_or_short nearestInterp (testImg 800 600) 400
      .long true false).height = 300 ∧
    (resize_by_long_or_short nearestInterp (testImg 600 800) 400
      .long true false).width = 300 ∧
    (resize_by_long_or_short nearestInterp (testImg 600 800) 400
      .long true false).height = 400 := by
  refine ⟨?_, ?_, ?_, ?_, ?_, ?_⟩
  · intro hcond
    rw [rls_keep_eq, if_pos hcond]
  · intro hcond
    rw [rls_keep_eq, if_neg hcond]
    exact ⟨Img.resize_width _ _ _ _, Img.resize_height _ _ _ _⟩
  · have h1 : ((testImg 800 600).width : ℚ) *
        specScale .long 400 (testImg 800 600).width (testImg 800 600).height
        = ((400 : ℕ) : ℚ) := by
      simp [specScale, testImg]
      norm_num
    rw [rls_keep_eq, if_neg (by simp), Img.resize_width, specDim, h1,
      pyRound_natCast]
    decide
  · have h1 : ((testImg 800 600).height : ℚ) *
        specScale .long 400 (testImg 800 600).width (testImg 800 600).height
        = ((300 : ℕ) : ℚ) := by
      simp [specScale, testImg]
      norm_num
    rw [rls_keep_eq, if_neg (by simp), Img.resize_height, specDim, h1,
      pyRound_natCast]
    decide
  · have h1 : ((testImg 600 800).width : ℚ) *
        specScale .long 400 (testImg 600 800).width (testImg 600 800).height
        = ((300 : ℕ) : ℚ) := by
      simp [specScale, testImg]
      norm_num
    rw [rls_keep_eq, if_neg (by simp), Img.resize_width, specDim, h1,
      pyRound_natCast]
    decide
  · have h1 : ((testImg 600 800).height : ℚ) *
        specScale .long 400 (testImg 600 800).width (testImg 600 800).height
        = ((400 : ℕ) : ℚ) := by
      simp [specScale, testImg]
      norm_num
    rw [rls_keep_eq, if_neg (by simp), Img.resize_height, specDim, h1,
      pyRound_natCast]
    decide

/-- Instantiation of `long_short_edge_sizing` at the concrete scenario
input. -/
theorem long_short_edge_sizing_witness :
    (resize_by_long_or_short nearestInterp (testImg 800 600) 400
      EdgeMode.long true false).width = 400 :=
  (long_short_edge_sizing nearestInterp (testImg 800 600) 400
    EdgeMode.long false (by decide) (by decide)).2.2.1

/- ------------------------------------------------------------------
   C7: `parse_size`.
   ------------------------------------------------------------------ -/

theorem digit_toLower {c : Char} (h : c.isDigit = true) : c.toLower = c := by
  simp only [Char.isDigit, Bool.and_eq_true, decide_eq_true_eq,
    UInt32.le_def, BitVec.le_def] at h
  simp only [Char.toLower, Char.toNat, UInt32.toNat] at *
  rw [if_neg]
  have h48 : (UInt32.toBitVec 48).toNat = 48 := rfl
  have h57 : (UInt32.toBitVec 57).toNat = 57 := rfl
  omega

theorem digit_ne_mult {c : Char} (h : c.isDigit = true) : c ≠ '×' := by
  intro heq; subst heq; simp [Char.isDigit] at h

theorem digit_ne_x {c : Char} (h : c.isDigit = true) : c ≠ 'x' := by
  intro heq; subst heq; simp [Char.isDigit] at h

theorem digit_ne_minus {c : Char} (h : c.isDigit = true) : c ≠ '-' := by
  intro heq; subst heq; simp [Char.isDigit] at h

theorem digit_ne_plus {c : Char} (h : c.isDigit = true) : c ≠ '+' := by
  intro heq; subst heq; simp [Char.isDigit] at h

theorem digit_not_ws {c : Char} (h : c.isDigit = true) :
    c.isWhitespace = false := by
  simp only [Char.isDigit, Bool.and_eq_true, decide_eq_true_eq,
    UInt32.le_def, BitVec.le_def] at h
  simp only [Char.isWhitespace]
  simp only [Bool.or_eq_false_iff, decide_eq_false_iff_not]
  refine ⟨⟨⟨?_, ?_⟩, ?_⟩, ?_⟩ <;>
  · intro heq
    subst heq
    simp [UInt32.toNat] at h

theorem pyLowerReplace_digits {l : List Char}
    (h : ∀ c ∈ l, c.isDigit = true) : pyLowerReplace l = l := by
  induction l with
  | nil => rfl
  | cons c l ih =>
    have hc := h c (List.mem_cons_self _ _)
    simp only [pyLowerReplace, List.map_cons]
    rw [digit_toLower hc, if_neg (digit_ne_mult hc)]
    have := ih (fun d hd => h d (List.mem_cons_of_mem _ hd))
    simp only [pyLowerReplace] at this
    rw [this]

theorem dropWhile_ws_eq {l : List Char}
    (h : ∀ c ∈ l, c.isWhitespace = false) :
    l.dropWhile Char.isWhitespace = l := by
  cases l with
  | nil => rfl
  | cons c l =>
    rw [List.dropWhile_cons, h c (List.mem_cons_self _ _)]
    simp

theorem pyStrip_digits {l : List Char}
    (h : ∀ c ∈ l, c.isDigit = true) : pyStrip l = l := by
  unfold pyStrip
  rw [dropWhile_ws_eq (fun c hc => digit_not_ws (h c hc))]
  rw [dropWhile_ws_eq (fun c hc => digit_not_ws (h c (List.mem_reverse.mp hc)))]
  exact List.reverse_reverse l

theorem digitsToNat_digits {l : List Char} (hne : l ≠ [])
    (h : ∀ c ∈ l, c.isDigit = true) :
    digitsToNat l = some (digitsVal l) := by
  cases l with
  | nil => exact absurd rfl hne
  | cons c l =>
    simp only [digitsToNat]
    rw [if_pos (List.all_eq_true.mpr h)]

theorem pyInt_digits {l : List Char} (hne : l ≠ [])
    (h : ∀ c ∈ l, c.isDigit = true) :
    pyInt l = some ((digitsVal l : ℤ)) := by
  cases l with
  | nil => exact absurd rfl hne
  | cons c l =>
    have hc := h c (List.mem_cons_self _ _)
    unfold pyInt
    rw [if_neg (by simp [digit_ne_minus hc]), if_neg (by simp [digit_ne_plus hc])]
    rw [digitsToNat_digits (by simp) h]
    rfl

theorem sizeParts_digits (dw dh : List Char) (sep : Char)
    (hsep : sep = 'x' ∨ sep = '×')
    (hdw : ∀ c ∈ dw, c.isDigit = true) (hdh : ∀ c ∈ dh, c.isDigit = true) :
    sizeParts (String.mk (dw ++ sep :: dh)) = [dw, dh] := by
  have hrepl : pyLowerReplace (dw ++ sep :: dh) = dw ++ 'x' :: dh := by
    unfold pyLowerReplace
    rw [List.map_append, List.map_cons]
    have h1 : pyLowerReplace dw = dw := pyLowerReplace_digits hdw
    have h2 : pyLowerReplace dh = dh := pyLowerReplace_digits hdh
    unfold pyLowerReplace at h1 h2
    rw [h1, h2]
    rcases hsep with rfl | rfl <;> rfl
  show (pyLowerReplace (String.mk (dw ++ sep :: dh)).toList).splitOn 'x' = [dw, dh]
  have htl : (String.mk (dw ++ sep :: dh)).toList = dw ++ sep :: dh := rfl
  rw [htl, hrepl]
  have hx : ∀ l ∈ [dw, dh], 'x' ∉ l := by
    intro l hl hmem
    rcases List.mem_pair.mp hl with rfl | rfl
    · exact digit_ne_x (hdw _ hmem) rfl
    · exact digit_ne_x (hdh _ hmem) rfl
  have := List.splitOn_intercalate [dw, dh] 'x' hx (by simp)
  simpa [List.intercalate] using this

/-- C7: `parse_size` maps a WIDTHxHEIGHT digit string (also with the
full-width `×` separator) with two positive values to the pair `(w, h)`;
when the text does not split into exactly two parts, a part is not an
integer literal, or a value is not positive, it raises; `"1024×768"`
parses to `(1024, 768)` and `"abc"` raises. -/
theorem parse_size_spec :
    (∀ dw dh : List Char, dw ≠ [] → dh ≠ [] →
      (∀ c ∈ dw, c.isDigit = true) → (∀ c ∈ dh, c.isDigit = true) →
      0 < digitsVal dw → 0 < digitsVal dh →
      parse_size (String.mk (dw ++ '×' :: dh)) =
        .ok ((digitsVal dw : ℤ), (digitsVal dh : ℤ)) ∧
      parse_size (String.mk (dw ++ 'x' :: dh)) =
        .ok ((digitsVal dw : ℤ), (digitsVal dh : ℤ))) ∧
    (∀ s : String, (¬ ∃ a b, sizeParts s = [a, b]) →
      ∃ e, parse_size s = .error e) ∧
    (∀ s : String, ∀ a b, sizeParts s = [a, b] →
      (pyInt (pyStrip a) = none ∨ pyInt (pyStrip b) = none →
        ∃ e, parse_size s = .error e) ∧
      (∀ w h : ℤ, pyInt (pyStrip a) = some w → pyInt (pyStrip b) = some h →
        w ≤ 0 ∨ h ≤ 0 → ∃ e, parse_size s = .error e)) ∧
    parse_size "1024×768" = .ok (1024, 768) ∧
    (∃ e, parse_size "abc" = .error e) := by
  have hok : ∀ (dw dh : List Char) (sep : Char), sep = 'x' ∨ sep = '×' →
      dw ≠ [] → dh ≠ [] →
      (∀ c ∈ dw, c.isDigit = true) → (∀ c ∈ dh, c.isDigit = true) →
      0 < digitsVal dw → 0 < digitsVal dh →
      parse_size (String.mk (dw ++ sep :: dh)) =
        .ok ((digitsVal dw : ℤ), (digitsVal dh : ℤ)) := by
    intro dw dh sep hsep hnw hnh hdw hdh hpw hph
    unfold parse_size
    rw [sizeParts_digits dw dh sep hsep hdw hdh]
    dsimp only
    rw [pyStrip_digits hdw, pyStrip_digits hdh,
      pyInt_digits hnw hdw, pyInt_digits hnh hdh]
    dsimp only
    rw [if_neg (by omega)]
  refine ⟨?_, ?_, ?_, ?_, ?_⟩
  · intro dw dh hnw hnh hdw hdh hpw hph
    exact ⟨hok dw dh '×' (Or.inr rfl) hnw hnh hdw hdh hpw hph,
           hok dw dh 'x' (Or.inl rfl) hnw hnh hdw hdh hpw hph⟩
  · intro s hn
    unfold parse_size
    match hp : sizeParts s with
    | [] => exact ⟨_, rfl⟩
    | [a] => exact ⟨_, rfl⟩
    | [a, b] => exact absurd ⟨a, b, hp⟩ hn
    | a :: b :: c :: l => exact ⟨_, rfl⟩
  · intro s a b hp
    constructor
    · intro hnone
      unfold parse_size
      rw [hp]
      dsimp only
      rcases hnone with h1 | h1
      · rw [h1]
        cases pyInt (pyStrip b) <;> exact ⟨_, rfl⟩
      · rw [h1]
        cases pyInt (pyStrip a) <;> exact ⟨_, rfl⟩
    · intro w h hw hh hle
      unfold parse_size
      rw [hp]
      dsimp only
      rw [hw, hh]
      dsimp only
      rw [if_pos hle]
      exact ⟨_, rfl⟩
  · rfl
  · exact ⟨_, rfl⟩

/-- Instantiation of `parse_size_spec` on the concrete digit string
`"12x7"`. -/
theorem parse_size_spec_witness :
    parse_size (String.mk (['1', '2'] ++ 'x' :: ['7'])) = .ok (12, 7) :=
  ((parse_size_spec.1 ['1', '2'] ['7'] (by decide) (by decide) (by decide)
    (by decide) (by decide) (by decide)).2).trans rfl

/- ------------------------------------------------------------------
   C8: fallback behaviour of the two size text fields.
   C9: empty batch.
   ------------------------------------------------------------------ -/

/-- Counterexample to C8 as stated: on the failing input `"abc"` the
custom sheet-size field swallows the parse error silently (no message is
reported to the user), while the claim says every size text field reports
it. -/
theorem sheet_size_error_not_reported :
    (∃ e, parse_size "abc" = .error e) ∧ (sheet_size_config "abc").1 = false :=
  ⟨⟨_, rfl⟩, rfl⟩

/-- C8 (amended): every failing textual size input falls back to the safe
default of its field — `(1024, 768)` for the target canvas, `(2480, 3508)`
for the custom sheet size; the target-canvas field additionally reports the
error to the user, while the sheet-size field falls back silently. -/
theorem parse_fallback_defaults (s : String) (e : String)
    (h : parse_size s = .error e) :
    target_canvas_config s = (true, 1024, 768) ∧
    sheet_size_config s = (false, 2480, 3508) := by
  unfold target_canvas_config sheet_size_config
  rw [h]
  exact ⟨rfl, rfl⟩

/-- Instantiation of `parse_fallback_defaults` at the failing input
`"abc"`. -/
theorem parse_fallback_defaults_witness :
    target_canvas_config "abc" = (true, 1024, 768) ∧
    sheet_size_config "abc" = (false, 2480, 3508) :=
  parse_fallback_defaults "abc" "expected WxH, e.g. 1024x768" rfl

/-- C9: with zero images entering the layout, the contact-sheet geometry
computation fails (Python `max()` raises `ValueError` on an empty
sequence) instead of proceeding with degenerate zero-row geometry. -/
theorem empty_batch_layout_fails (cols gap margin : ℕ)
    (fixed : Option (ℕ × ℕ)) :
    contact_sheet_plan [] cols gap margin fixed =
      .error "max() arg is an empty sequence" := rfl

/- ------------------------------------------------------------------
   C2, C3, C10: `resize_to_box`.
   ------------------------------------------------------------------ -/

theorem specPadScale_le_div_w (noUp : Bool) (w h tw th : ℕ) :
    specPadScale noUp w h tw th ≤ (tw : ℚ) / w := by
  unfold specPadScale
  cases noUp
  · exact min_le_left _ _
  · exact le_trans (min_le_right _ _) (min_le_left _ _)

theorem specPadScale_le_div_h (noUp : Bool) (w h tw th : ℕ) :
    specPadScale noUp w h tw th ≤ (th : ℚ) / h := by
  unfold specPadScale
  cases noUp
  · exact min_le_right _ _
  · exact le_trans (min_le_right _ _) (min_le_right _ _)

theorem mul_div_self_le {d t : ℕ} {s : ℚ} (hd : 0 < d)
    (hs : s ≤ (t : ℚ) / d) : (d : ℚ) * s ≤ t := by
  have hd' : ((d : ℕ) : ℚ) ≠ 0 := Nat.cast_ne_zero.mpr hd.ne'
  calc (d : ℚ) * s ≤ (d : ℚ) * ((t : ℚ) / d) :=
        mul_le_mul_of_nonneg_left hs (by positivity)
    _ = t := by rw [mul_comm, div_mul_cancel₀ _ hd']

theorem one_le_specDim (d : ℕ) (s : ℚ) : 1 ≤ specDim d s := by
  unfold specDim
  omega

theorem specDim_le {d t : ℕ} {s : ℚ} (hmul : (d : ℚ) * s ≤ (t : ℚ))
    (ht : 0 < t) : specDim d s ≤ t := by
  unfold specDim
  have : pyRound ((d : ℚ) * s) ≤ (t : ℤ) := pyRound_le_of_le (by exact_mod_cast hmul)
  omega

theorem specDim_one {d : ℕ} (hd : 0 < d) : specDim d 1 = d := by
  unfold specDim
  have h1 : ((d : ℕ) : ℚ) * 1 = ((d : ℕ) : ℚ) := mul_one _
  rw [h1, pyRound_natCast]
  omega

theorem fdiv_two_eq (a : ℤ) : a.fdiv 2 = a / 2 :=
  Int.fdiv_eq_ediv a (by norm_num)

theorem crop_origin_eq (a b : ℕ) :
    (max 0 (((a : ℤ) - b).fdiv 2)).toNat = (a - b) / 2 := by
  rw [fdiv_two_eq]
  omega

/-- The PadToFit branch of `resize_to_box` in closed form. -/
theorem rtb_pad_eq (interp : Interp) (img : Img) (tw th : ℕ) (color : RGB)
    (noUp : Bool) :
    resize_to_box interp img tw th .padToFit color noUp =
      (newImage tw th color).paste
        (img.resize interp
          (specDim img.width (specPadScale noUp img.width img.height tw th))
          (specDim img.height (specPadScale noUp img.width img.height tw th)))
        (((tw : ℤ) -
          specDim img.width (specPadScale noUp img.width img.height tw th)).fdiv 2)
        (((th : ℤ) -
          specDim img.height (specPadScale noUp img.width img.height tw th)).fdiv 2) := by
  cases noUp <;> rfl

/-- The CropToFill branch of `resize_to_box` in closed form. -/
theorem rtb_crop_eq (interp : Interp) (img : Img) (tw th : ℕ) (color : RGB)
    (noUp : Bool) :
    resize_to_box interp img tw th .cropToFill color noUp =
      (img.resize interp
        (specDim img.width (specCropScale noUp img.width img.height tw th))
        (specDim img.height (specCropScale noUp img.width img.height tw th))).crop
        ((max 0 (((specDim img.width
            (specCropScale noUp img.width img.height tw th) : ℤ) - tw).fdiv 2)).toNat)
        ((max 0 (((specDim img.height
            (specCropScale noUp img.width img.height tw th) : ℤ) - th).fdiv 2)).toNat)
        ((max 0 (((specDim img.width
            (specCropScale noUp img.width img.height tw th) : ℤ) - tw).fdiv 2)).toNat + tw)
        ((max 0 (((specDim img.height
            (specCropScale noUp img.width img.height tw th) : ℤ) - th).fdiv 2)).toNat + th) := by
  cases noUp <;> rfl

/-- C2: PadToFit computes scale = min(tw/w, th/h), clamped to ≤ 1 under
noUpscale, resizes to (max 1 round(w·scale), max 1 round(h·scale)), and
pastes the result centered onto a tw×th canvas of the background colour;
the output has size exactly (tw, th) whatever the input aspect ratio. -/
theorem pad_to_fit_spec (interp : Interp) (img : Img) (tw th : ℕ)
    (color : RGB) (noUp : Bool) (nw nh ox oy : ℕ)
    (hw : 0 < img.width) (hh : 0 < img.height)
    (htw : 0 < tw) (hth : 0 < th)
    (hnw : nw = specDim img.width (specPadScale noUp img.width img.height tw th))
    (hnh : nh = specDim img.height (specPadScale noUp img.width img.height tw th))
    (hox : ox = (tw - nw) / 2) (hoy : oy = (th - nh) / 2) :
    (resize_to_box interp img tw th .padToFit color noUp).width = tw ∧
    (resize_to_box interp img tw th .padToFit color noUp).height = th ∧
    1 ≤ nw ∧ nw ≤ tw ∧ 1 ≤ nh ∧ nh ≤ th ∧
    (∀ x y, x < tw → y < th →
      (resize_to_box interp img tw th .padToFit color noUp).px x y =
        if ox ≤ x ∧ x < ox + nw ∧ oy ≤ y ∧ y < oy + nh
        then (img.resize interp nw nh).px (x - ox) (y - oy)
        else color) := by
  subst hnw hnh hox hoy
  have hmw : (img.width : ℚ) * specPadScale noUp img.width img.height tw th ≤ tw :=
    mul_div_self_le hw (specPadScale_le_div_w noUp img.width img.height tw th)
  have hmh : (img.height : ℚ) * specPadScale noUp img.width img.height tw th ≤ th :=
    mul_div_self_le hh (specPadScale_le_div_h noUp img.width img.height tw th)
  have hnwle : specDim img.width (specPadScale noUp img.width img.height tw th) ≤ tw :=
    specDim_le hmw htw
  have hnhle : specDim img.height (specPadScale noUp img.width img.height tw th) ≤ th :=
    specDim_le hmh hth
  refine ⟨by rw [rtb_pad_eq]; rfl, by rw [rtb_pad_eq]; rfl,
    one_le_specDim _ _, hnwle, one_le_specDim _ _, hnhle, ?_⟩
  intro x y hx hy
  rw [rtb_pad_eq]
  dsimp only [Img.paste]
  rw [Img.resize_width, Img.resize_height, fdiv_two_eq, fdiv_two_eq]
  set A := specDim img.width (specPadScale noUp img.width img.height tw th) with hA
  set B := specDim img.height (specPadScale noUp img.width img.height tw th) with hB
  by_cases hc : (tw - A) / 2 ≤ x ∧ x < (tw - A) / 2 + A ∧
      (th - B) / 2 ≤ y ∧ y < (th - B) / 2 + B
  · have hcz : ((tw : ℤ) - A) / 2 ≤ (x : ℤ) ∧
        (x : ℤ) < ((tw : ℤ) - A) / 2 + A ∧
        ((th : ℤ) - B) / 2 ≤ (y : ℤ) ∧
        (y : ℤ) < ((th : ℤ) - B) / 2 + B := by omega
    rw [if_pos hcz, if_pos hc]
    have e1 : ((x : ℤ) - ((tw : ℤ) - A) / 2).toNat = x - (tw - A) / 2 := by omega
    have e2 : ((y : ℤ) - ((th : ℤ) - B) / 2).toNat = y - (th - B) / 2 := by omega
    rw [e1, e2]
  · have hcz : ¬(((tw : ℤ) - A) / 2 ≤ (x : ℤ) ∧
        (x : ℤ) < ((tw : ℤ) - A) / 2 + A ∧
        ((th : ℤ) - B) / 2 ≤ (y : ℤ) ∧
        (y : ℤ) < ((th : ℤ) - B) / 2 + B) := by omega
    rw [if_neg hcz, if_neg hc]
    rfl

/-- Instantiation of `pad_to_fit_spec` at the spec's scenario 2 input:
a (1000,500) image into a (500,500) PadToFit box. -/
theorem pad_to_fit_spec_witness :
    (resize_to_box nearestInterp (testImg 1000 500) 500 500 .padToFit
      blackPx false).width = 500 :=
  (pad_to_fit_spec nearestInterp (testImg 1000 500) 500 500 blackPx false
    _ _ _ _ (by decide) (by decide) (by decide) (by decide)
    rfl rfl rfl rfl).1

/-- C3: CropToFill computes scale = max(tw/w, th/h), clamped to ≤ 1 under
noUpscale, resizes to (max 1 round(w·scale), max 1 round(h·scale)), and
center-crops the scaled image with origin ((nw−tw)/2, (nh−th)/2) clamped to
be non-negative; the output has size exactly (tw, th). -/
theorem crop_to_fill_spec (interp : Interp) (img : Img) (tw th : ℕ)
    (color : RGB) (noUp : Bool) (nw nh left top : ℕ)
    (hw : 0 < img.width) (hh : 0 < img.height)
    (htw : 0 < tw) (hth : 0 < th)
    (hnw : nw = specDim img.width (specCropScale noUp img.width img.height tw th))
    (hnh : nh = specDim img.height (specCropScale noUp img.width img.height tw th))
    (hleft : left = (nw - tw) / 2) (htop : top = (nh - th) / 2) :
    (resize_to_box interp img tw th .cropToFill color noUp).width = tw ∧
    (resize_to_box interp img tw th .cropToFill color noUp).height = th ∧
    (∀ x y, x < tw → y < th →
      (resize_to_box interp img tw th .cropToFill color noUp).px x y =
        if left + x < nw ∧ top + y < nh
        then (img.resize interp nw nh).px (left + x) (top + y)
        else blackPx) := by
  subst hnw hnh hleft htop
  refine ⟨?_, ?_, ?_⟩
  · rw [rtb_crop_eq]
    dsimp only [Img.crop]
    omega
  · rw [rtb_crop_eq]
    dsimp only [Img.crop]
    omega
  · intro x y hx hy
    rw [rtb_crop_eq]
    dsimp only [Img.crop]
    rw [Img.resize_width, Img.resize_height, crop_origin_eq, crop_origin_eq]

/-- Instantiation of `crop_to_fill_spec` at a (1000,500) image and a
(500,500) CropToFill box. -/
theorem crop_to_fill_spec_witness :
    (resize_to_box nearestInterp (testImg 1000 500) 500 500 .cropToFill
      blackPx false).width = 500 :=
  (crop_to_fill_spec nearestInterp (testImg 1000 500) 500 500 blackPx false
    _ _ _ _ (by decide) (by decide) (by decide) (by decide)
    rfl rfl rfl rfl).1

/-- C10: CropToFill with noUpscale on an input strictly smaller than the
target box in both dimensions: the clamped scale is 1, the crop box extends
past the image, and the result still has size exactly (tw, th) with the
input content at the top-left and the uncovered region zero-filled (black)
— not the configured background colour, which is ignored. -/
theorem crop_no_upscale_small_input (interp : Interp) (img : Img)
    (tw th : ℕ) (color : RGB)
    (hw : 0 < img.width) (hh : 0 < img.height)
    (hwt : img.width < tw) (hht : img.height < th) :
    (resize_to_box interp img tw th .cropToFill color true).width = tw ∧
    (resize_to_box interp img tw th .cropToFill color true).height = th ∧
    (∀ x y, x < tw → y < th →
      (resize_to_box interp img tw th .cropToFill color true).px x y =
        if x < img.width ∧ y < img.height then img.px x y else blackPx) := by
  have hwpos : (0 : ℚ) < (img.width : ℚ) := by exact_mod_cast hw
  have hscale : specCropScale true img.width img.height tw th = 1 := by
    have h1 : (1 : ℚ) < (tw : ℚ) / img.width := by
      rw [one_lt_div hwpos]
      exact_mod_cast hwt
    have h2 : (1 : ℚ) ≤ max ((tw : ℚ) / img.width) ((th : ℚ) / img.height) :=
      le_trans h1.le (le_max_left _ _)
    simp only [specCropScale, if_true]
    exact min_eq_left h2
  have hnw : specDim img.width (specCropScale true img.width img.height tw th)
      = img.width := by rw [hscale]; exact specDim_one hw
  have hnh : specDim img.height (specCropScale true img.width img.height tw th)
      = img.height := by rw [hscale]; exact specDim_one hh
  have hleft : (max 0 (((specDim img.width
      (specCropScale true img.width img.height tw th) : ℤ) - tw).fdiv 2)).toNat = 0 := by
    rw [crop_origin_eq, hnw]
    omega
  have htop : (max 0 (((specDim img.height
      (specCropScale true img.width img.height tw th) : ℤ) - th).fdiv 2)).toNat = 0 := by
    rw [crop_origin_eq, hnh]
    omega
  refine ⟨?_, ?_, ?_⟩
  · rw [rtb_crop_eq]
    dsimp only [Img.crop]
    omega
  · rw [rtb_crop_eq]
    dsimp only [Img.crop]
    omega
  · intro x y hx hy
    rw [rtb_crop_eq, hleft, htop]
    rw [hnw, hnh, Img.resize_self]
    dsimp only [Img.crop]
    simp only [Nat.zero_add]

/-- Instantiation of `crop_no_upscale_small_input` at a (300,200) image and
a (500,400) box. -/
theorem crop_no_upscale_small_input_witness :
    (resize_to_box nearestInterp (testImg 300 200) 500 400 .cropToFill
      blackPx true).width = 500 :=
  (crop_no_upscale_small_input nearestInterp (testImg 300 200) 500 400
    blackPx (by decide) (by decide) (by decide) (by decide)).1

/- ------------------------------------------------------------------
   C4, C5, C6: contact-sheet grid geometry.
   ------------------------------------------------------------------ -/

theorem pyCeilDiv_eq_ceil (n c : ℕ) (hc : 1 ≤ c) :
    ((pyCeilDiv n c : ℕ) : ℤ) = ⌈(n : ℚ) / (c : ℚ)⌉ := by
  have hc0 : 0 < c := hc
  have hcq : (0 : ℚ) < (c : ℚ) := by exact_mod_cast hc0
  have e3 : c * pyCeilDiv n c + (n + c - 1) % c = n + c - 1 :=
    Nat.div_add_mod (n + c - 1) c
  have e4 : (n + c - 1) % c < c := Nat.mod_lt _ hc0
  have hub : (n : ℤ) ≤ (c : ℤ) * pyCeilDiv n c := by
    have : n ≤ c * pyCeilDiv n c := by omega
    exact_mod_cast this
  have hlb : (c : ℤ) * pyCeilDiv n c < (n : ℤ) + c := by
    have : c * pyCeilDiv n c < n + c := by omega
    exact_mod_cast this
  have hubq : (n : ℚ) ≤ (c : ℚ) * (pyCeilDiv n c : ℚ) := by exact_mod_cast hub
  have hlbq : (c : ℚ) * (pyCeilDiv n c : ℚ) < (n : ℚ) + c := by exact_mod_cast hlb
  rw [eq_comm, Int.ceil_eq_iff]
  push_cast
  constructor
  · rw [lt_div_iff₀ hcq]
    have hr : ((pyCeilDiv n c : ℚ) - 1) * c = (c : ℚ) * pyCeilDiv n c - c := by
      ring
    rw [hr]
    linarith
  · rw [div_le_iff₀ hcq]
    have hr : (pyCeilDiv n c : ℚ) * c = (c : ℚ) * pyCeilDiv n c := by ring
    rw [hr]
    linarith

theorem contact_sheet_plan_cell {sizes : List (ℕ × ℕ)}
    {cols gap margin : ℕ} {fixed : Option (ℕ × ℕ)} {plan : SheetPlan}
    (h : contact_sheet_plan sizes cols gap margin fixed = .ok plan) :
    listMax (sizes.map Prod.fst) = some plan.cell_w ∧
    listMax (sizes.map Prod.snd) = some plan.cell_h := by
  unfold contact_sheet_plan at h
  cases hw : listMax (sizes.map Prod.fst) with
  | none => rw [hw] at h; simp at h
  | some cw =>
    rw [hw] at h
    cases hh2 : listMax (sizes.map Prod.snd) with
    | none => rw [hh2] at h; simp at h
    | some ch =>
      rw [hh2] at h
      cases fixed with
      | none =>
        dsimp only at h
        injection h with h2
        subst h2
        exact ⟨rfl, rfl⟩
      | some p =>
        cases p with
        | mk sw sh =>
          dsimp only at h
          injection h with h2
          subst h2
          exact ⟨rfl, rfl⟩

theorem contact_sheet_plan_none_inv {sizes : List (ℕ × ℕ)}
    {cols gap margin : ℕ} {plan : SheetPlan}
    (h : contact_sheet_plan sizes cols gap margin none = .ok plan) :
    listMax (sizes.map Prod.fst) = some plan.cell_w ∧
    listMax (sizes.map Prod.snd) = some plan.cell_h ∧
    plan.rows = pyCeilDiv sizes.length cols ∧
    plan.W = margin * 2 + cols * plan.cell_w + (cols - 1) * gap ∧
    plan.H = margin * 2 + plan.rows * plan.cell_h + (plan.rows - 1) * gap := by
  unfold contact_sheet_plan at h
  cases hw : listMax (sizes.map Prod.fst) with
  | none => rw [hw] at h; simp at h
  | some cw =>
    rw [hw] at h
    cases hh2 : listMax (sizes.map Prod.snd) with
    | none => rw [hh2] at h; simp at h
    | some ch =>
      rw [hh2] at h
      dsimp only at h
      injection h with h2
      subst h2
      exact ⟨rfl, rfl, rfl, rfl, rfl⟩

theorem place_in_grid_eq (cw ch cols gap margin i : ℕ) (sz : ℕ × ℕ)
    (hw : sz.1 ≤ cw) (hh : sz.2 ≤ ch) :
    place_in_grid cw ch cols gap margin i sz =
      (margin + (i % cols) * (cw + gap) + (cw - sz.1) / 2,
       margin + (i / cols) * (ch + gap) + (ch - sz.2) / 2) := by
  simp only [place_in_grid, fdiv_two_eq]
  rw [if_neg (by omega)]
  simp only [Prod.mk.injEq]
  constructor <;> omega

theorem place_in_grid_in_cell (cw ch cols gap margin i : ℕ) (sz : ℕ × ℕ)
    (hw : sz.1 ≤ cw) (hh : sz.2 ≤ ch) :
    margin + (i % cols) * (cw + gap) ≤
      (place_in_grid cw ch cols gap margin i sz).1 ∧
    (place_in_grid cw ch cols gap margin i sz).1 + sz.1 ≤
      margin + (i % cols) * (cw + gap) + cw ∧
    margin + (i / cols) * (ch + gap) ≤
      (place_in_grid cw ch cols gap margin i sz).2 ∧
    (place_in_grid cw ch cols gap margin i sz).2 + sz.2 ≤
      margin + (i / cols) * (ch + gap) + ch := by
  rw [place_in_grid_eq cw ch cols gap margin i sz hw hh]
  refine ⟨?_, ?_, ?_, ?_⟩ <;> (dsimp only; omega)

/-- C4: with no fixed canvas, the grid uses the componentwise maximum of
the image sizes as cell size, rows = ⌈N/C⌉, canvas exactly
(2·margin + C·cellW + (C−1)·gap, 2·margin + rows·cellH + (rows−1)·gap),
and image i is centered in the cell at row i/C, column i%C. -/
theorem grid_geometry_spec (sizes : List (ℕ × ℕ)) (cols gap margin : ℕ)
    (plan : SheetPlan) (hcols : 1 ≤ cols)
    (hplan : contact_sheet_plan sizes cols gap margin none = .ok plan) :
    (∀ p ∈ sizes, p.1 ≤ plan.cell_w ∧ p.2 ≤ plan.cell_h) ∧
    plan.cell_w ∈ sizes.map Prod.fst ∧
    plan.cell_h ∈ sizes.map Prod.snd ∧
    ((plan.rows : ℤ) = ⌈(sizes.length : ℚ) / (cols : ℚ)⌉) ∧
    plan.W = 2 * margin + cols * plan.cell_w + (cols - 1) * gap ∧
    plan.H = 2 * margin + plan.rows * plan.cell_h + (plan.rows - 1) * gap ∧
    (∀ i, ∀ hi : i < sizes.length,
      place_in_grid plan.cell_w plan.cell_h cols gap margin i
          (sizes.get ⟨i, hi⟩) =
        (margin + (i % cols) * (plan.cell_w + gap) +
          (plan.cell_w - (sizes.get ⟨i, hi⟩).1) / 2,
         margin + (i / cols) * (plan.cell_h + gap) +
          (plan.cell_h - (sizes.get ⟨i, hi⟩).2) / 2)) := by
  obtain ⟨hcw, hch, hrows, hW, hH⟩ := contact_sheet_plan_none_inv hplan
  refine ⟨?_, listMax_mem hcw, listMax_mem hch, ?_, by omega, by omega, ?_⟩
  · intro p hp
    exact ⟨mem_le_listMax (List.mem_map_of_mem Prod.fst hp) hcw,
           mem_le_listMax (List.mem_map_of_mem Prod.snd hp) hch⟩
  · rw [hrows]
    exact pyCeilDiv_eq_ceil _ _ hcols
  · intro i hi
    exact place_in_grid_eq _ _ _ _ _ _ _
      (mem_le_listMax (List.mem_map_of_mem Prod.fst (List.get_mem sizes _ _)) hcw)
      (mem_le_listMax (List.mem_map_of_mem Prod.snd (List.get_mem sizes _ _)) hch)

/-- Instantiation of `grid_geometry_spec` at five (300,200) images,
3 columns, gap 10, margin 20. -/
theorem grid_geometry_spec_witness :
    (⟨300, 200, 2, 960, 450, false⟩ : SheetPlan).W =
      2 * 20 + 3 * 300 + (3 - 1) * 10 :=
  (grid_geometry_spec
    [(300, 200), (300, 200), (300, 200), (300, 200), (300, 200)] 3 10 20
    ⟨300, 200, 2, 960, 450, false⟩ (by decide) (by rfl)).2.2.2.2.1

/-- C5: in any planned layout, the placed bounding boxes of two distinct
image indices do not intersect. -/
theorem grid_placements_disjoint (sizes : List (ℕ × ℕ))
    (cols gap margin : ℕ) (fixed : Option (ℕ × ℕ)) (plan : SheetPlan)
    (hcols : 1 ≤ cols)
    (hplan : contact_sheet_plan sizes cols gap margin fixed = .ok plan)
    (i j : ℕ) (hi : i < sizes.length) (hj : j < sizes.length) (hne : i ≠ j) :
    ¬ boxesOverlap
      (place_in_grid plan.cell_w plan.cell_h cols gap margin i
        (sizes.get ⟨i, hi⟩)) (sizes.get ⟨i, hi⟩)
      (place_in_grid plan.cell_w plan.cell_h cols gap margin j
        (sizes.get ⟨j, hj⟩)) (sizes.get ⟨j, hj⟩) := by
  obtain ⟨hcw, hch⟩ := contact_sheet_plan_cell hplan
  have hwi := mem_le_listMax
    (List.mem_map_of_mem Prod.fst (List.get_mem sizes i hi)) hcw
  have hhi := mem_le_listMax
    (List.mem_map_of_mem Prod.snd (List.get_mem sizes i hi)) hch
  have hwj := mem_le_listMax
    (List.mem_map_of_mem Prod.fst (List.get_mem sizes j hj)) hcw
  have hhj := mem_le_listMax
    (List.mem_map_of_mem Prod.snd (List.get_mem sizes j hj)) hch
  rintro ⟨u, v, ⟨hu1, hu2, hv1, hv2⟩, hu3, hu4, hv3, hv4⟩
  obtain ⟨bi1, bi2, bi3, bi4⟩ :=
    place_in_grid_in_cell plan.cell_w plan.cell_h cols gap margin i _ hwi hhi
  obtain ⟨bj1, bj2, bj3, bj4⟩ :=
    place_in_grid_in_cell plan.cell_w plan.cell_h cols gap margin j _ hwj hhj
  have hcell : ∀ c1 c2 : ℕ, c1 < c2 →
      margin + c1 * (plan.cell_w + gap) + plan.cell_w ≤
        margin + c2 * (plan.cell_w + gap) := by
    intro c1 c2 hlt
    have h2 : (c1 + 1) * (plan.cell_w + gap) ≤ c2 * (plan.cell_w + gap) :=
      Nat.mul_le_mul_right _ hlt
    rw [add_one_mul] at h2
    omega
  have hrow : ∀ r1 r2 : ℕ, r1 < r2 →
      margin + r1 * (plan.cell_h + gap) + plan.cell_h ≤
        margin + r2 * (plan.cell_h + gap) := by
    intro r1 r2 hlt
    have h2 : (r1 + 1) * (plan.cell_h + gap) ≤ r2 * (plan.cell_h + gap) :=
      Nat.mul_le_mul_right _ hlt
    rw [add_one_mul] at h2
    omega
  have hcol_eq : i % cols = j % cols := by
    rcases lt_trichotomy (i % cols) (j % cols) with hlt | heq | hlt
    · have := hcell _ _ hlt
      omega
    · exact heq
    · have := hcell _ _ hlt
      omega
  have hrow_eq : i / cols = j / cols := by
    rcases lt_trichotomy (i / cols) (j / cols) with hlt | heq | hlt
    · have := hrow _ _ hlt
      omega
    · exact heq
    · have := hrow _ _ hlt
      omega
  have d1 := Nat.div_add_mod i cols
  have d2 := Nat.div_add_mod j cols
  rw [hrow_eq, hcol_eq] at d1
  exact hne (by omega)

/-- Instantiation of `grid_placements_disjoint` at two (300,200) images in
a 3-column grid. -/
theorem grid_placements_disjoint_witness :
    ¬ boxesOverlap
      (place_in_grid 300 200 3 10 20 0 (300, 200)) (300, 200)
      (place_in_grid 300 200 3 10 20 1 (300, 200)) (300, 200) :=
  grid_placements_disjoint [(300, 200), (300, 200)] 3 10 20 none
    ⟨300, 200, 1, 960, 240, false⟩ (by decide) (by rfl) 0 1
    (by decide) (by decide) (by decide)

/-- C6: because the cell size is the maximum over all images entering the
layout, the centering offsets are never negative, so the guarded flush
top-left fallback is unreachable: the guarded placement always equals the
centered placement. -/
theorem centering_fallback_unreachable (sizes : List (ℕ × ℕ))
    (cols gap margin : ℕ) (fixed : Option (ℕ × ℕ)) (plan : SheetPlan)
    (hplan : contact_sheet_plan sizes cols gap margin fixed = .ok plan)
    (i : ℕ) (hi : i < sizes.length) :
    0 ≤ ((margin + (i % cols) * (plan.cell_w + gap) : ℕ) : ℤ) +
        ((plan.cell_w : ℤ) - ((sizes.get ⟨i, hi⟩).1 : ℤ)).fdiv 2 ∧
    0 ≤ ((margin + (i / cols) * (plan.cell_h + gap) : ℕ) : ℤ) +
        ((plan.cell_h : ℤ) - ((sizes.get ⟨i, hi⟩).2 : ℤ)).fdiv 2 ∧
    place_in_grid plan.cell_w plan.cell_h cols gap margin i
        (sizes.get ⟨i, hi⟩) =
      (margin + (i % cols) * (plan.cell_w + gap) +
        (plan.cell_w - (sizes.get ⟨i, hi⟩).1) / 2,
       margin + (i / cols) * (plan.cell_h + gap) +
        (plan.cell_h - (sizes.get ⟨i, hi⟩).2) / 2) := by
  obtain ⟨hcw, hch⟩ := contact_sheet_plan_cell hplan
  have hwi := mem_le_listMax
    (List.mem_map_of_mem Prod.fst (List.get_mem sizes i hi)) hcw
  have hhi := mem_le_listMax
    (List.mem_map_of_mem Prod.snd (List.get_mem sizes i hi)) hch
  refine ⟨?_, ?_, place_in_grid_eq _ _ _ _ _ _ _ hwi hhi⟩
  · rw [fdiv_two_eq]
    omega
  · rw [fdiv_two_eq]
    omega

/-- Instantiation of `centering_fallback_unreachable` at two images of
different sizes in a 3-column grid. -/
theorem centering_fallback_unreachable_witness :
    place_in_grid 300 200 3 10 20 1 (100, 80) =
      (20 + 1 * (300 + 10) + (300 - 100) / 2,
       20 + 0 * (200 + 10) + (200 - 80) / 2) :=
  (centering_fallback_unreachable [(300, 200), (100, 80)] 3 10 20 none
    ⟨300, 200, 1, 960, 240, false⟩ (by rfl) 1 (by decide)).2.2

end LabImageBatcher
